import Mathlib

/-!
# Verification of the SparSDR capture parsers and threshold calibration

Shallow embedding of `src/utilities/SparSDRUtil.py` and
`src/utilities/autoThreshComputePluto.py` from the `ucsdsysnet/sparsdr`
repository, together with proofs about the embedded definitions.

Conventions used throughout:
* Machine integers are modelled as `ℕ` / `ℤ` with explicit `% 2^w` where the
  source masks or lets values wrap; `struct.unpack` of signed 16-bit halves is
  modelled by `toInt16`.
* Python floats are modelled exactly: timestamp arithmetic happens on `ℚ`
  (all the values involved are products of integers with the literal
  `16.2760417 * 2^(L-1)`, and only order/equality facts are proved, which
  the exact model shares with the float code), and the one place where the
  sign behaviour of IEEE `log10` matters is modelled by a sign classifier
  (`log10Neg`) whose doc comment records the IEEE facts it encodes.
* Files are modelled as the list of their bytes (`List ℕ`, each `< 256`);
  `print` calls made on the corruption-recovery path of the V2 parser are
  modelled by an `errors` counter so that theorems can talk about runs in
  which the parser never lost synchronisation.
-/

/-- Value of a little-endian unsigned 32-bit word with bytes `b0` (lowest)
through `b3` (highest); embedding of `struct.unpack("I", ...)`. -/
def word32 (b0 b1 b2 b3 : ℕ) : ℕ :=
  b0 + 256 * b1 + 65536 * b2 + 16777216 * b3

/-- Reinterpret the low 16 bits of `n` as a signed 16-bit integer; embedding of
one `"h"` field of `struct.unpack`. -/
def toInt16 (n : ℕ) : ℤ :=
  if n % 65536 < 32768 then (n % 65536 : ℤ) else (n % 65536 : ℤ) - 65536

/-- The literal `16.2760417` from the source (`1e9 / 61.44e6` rounded): the
duration of one 61.44 MHz clock tick in nanoseconds. -/
def tickNs : ℚ := 162760417 / 10000000

/-- `ts = 16.2760417 * (1 << (fft_size_log2 - 1))`: nanoseconds per unit of
the truncated on-wire window counter. -/
def tsScale (fft_size_log2 : ℕ) : ℚ := tickNs * 2 ^ (fft_size_log2 - 1)

/-! ## V1 decoder (`parsePlutoV1`)

One V1 record is 8 bytes: `unpack("hhI")` gives `imag`, `real` and the header
word `hdr`, and `unpack("II")` reinterprets the first four bytes as the
unsigned magnitude carrier `avg_magnitude`. -/

structure V1Record where
  imag : ℤ
  real : ℤ
  hdr : ℕ
  avg_magnitude : ℕ
  deriving Repr, DecidableEq

/-- Chunk a byte stream into 8-byte V1 records; a trailing short read is
dropped (`len(b) < 8` breaks the loop). -/
def v1Records : List ℕ → List V1Record
  | b0 :: b1 :: b2 :: b3 :: b4 :: b5 :: b6 :: b7 :: rest =>
      { imag := toInt16 (b0 + 256 * b1)
        real := toInt16 (b2 + 256 * b3)
        hdr := word32 b4 b5 b6 b7
        avg_magnitude := word32 b0 b1 b2 b3 } :: v1Records rest
  | _ => []

/-- The mutable state of the `parsePlutoV1` loop, including the eight output
lists that the function returns. -/
structure V1State where
  n : ℕ
  fft_time_offset : ℤ
  avg_time_offset : ℤ
  last_fft_time : ℕ
  last_avg_time : ℕ
  magIdxList : List ℕ
  fixedAvgTimeList : List ℚ
  avgMagnitudeList : List ℕ
  fftNoList : List ℕ
  fftIndexList : List ℕ
  fixedFftTimeList : List ℚ
  realList : List ℤ
  imagList : List ℤ
  deriving Repr, DecidableEq

def initV1 : V1State :=
  { n := 0, fft_time_offset := 0, avg_time_offset := 0
    last_fft_time := 0, last_avg_time := 0
    magIdxList := [], fixedAvgTimeList := [], avgMagnitudeList := []
    fftNoList := [], fftIndexList := [], fixedFftTimeList := []
    realList := [], imagList := [] }

/-- One iteration of the `parsePlutoV1` loop body.  With
`max_fft_size_log2 = 10` the source has `time_bits = 21`,
`index_mask = 0x3FF` and `time_mask = 2^21 - 1`; the bit operations are
embedded arithmetically: `hdr >> 31 & 1` is `hdr / 2^31 % 2`,
`(hdr >> 21) & 0x3FF` is `hdr / 2^21 % 1024`, `hdr & time_mask` is
`hdr % 2^21`, and `time & (time_mask - 1)` clears the lowest bit of the
(21-bit) `time`, i.e. equals `time - time % 2`. -/
def v1Step (ts : ℚ) (s : V1State) (r : V1Record) : V1State :=
  let is_avg : ℕ := r.hdr / 2 ^ 31 % 2
  let index : ℕ := r.hdr / 2 ^ 21 % 1024
  let time : ℕ := r.hdr % 2 ^ 21
  let fft_no : ℕ := time % 2
  let s :=
    if s.n = 0 then
      { s with fft_time_offset := -(time : ℤ), avg_time_offset := -(time : ℤ) }
    else s
  let s := { s with n := s.n + 1 }
  if is_avg = 1 then
    let s :=
      if time < s.last_avg_time then
        { s with avg_time_offset := s.avg_time_offset + 2 ^ 21 }
      else s
    let fixed_avg_time : ℚ := (((time - time % 2 : ℕ) : ℤ) + s.avg_time_offset : ℤ) * ts
    { s with last_avg_time := time
             magIdxList := s.magIdxList ++ [index]
             fixedAvgTimeList := s.fixedAvgTimeList ++ [fixed_avg_time]
             avgMagnitudeList := s.avgMagnitudeList ++ [r.avg_magnitude] }
  else
    let s :=
      if time < s.last_fft_time then
        { s with fft_time_offset := s.fft_time_offset + 2 ^ 21 }
      else s
    let fixed_fft_time : ℚ := (((time : ℕ) : ℤ) + s.fft_time_offset : ℤ) * ts
    { s with last_fft_time := time
             fftNoList := s.fftNoList ++ [fft_no]
             fftIndexList := s.fftIndexList ++ [index]
             fixedFftTimeList := s.fixedFftTimeList ++ [fixed_fft_time]
             realList := s.realList ++ [r.real]
             imagList := s.imagList ++ [r.imag] }

/-- `parsePlutoV1`: fold the loop body over the 8-byte records of the input
byte stream.  `bytes` stands for the contents of the file named by the
source's `filename` argument. -/
def parsePlutoV1 (bytes : List ℕ) (fft_size_log2 : ℕ) : V1State :=
  (v1Records bytes).foldl (v1Step (tsScale fft_size_log2)) initV1

/-! ## V2 decoder (`parsePlutoV2`)

A stream of 4-byte little-endian words; each word is simultaneously viewed as
an unsigned 32-bit `value` and as the pair `(imag, real)` of signed 16-bit
halves.  The loop keeps a frame-sync automaton (`first_zero`), section flags
(`in_FFT` / `in_avg` / `after_hdr` / `after_zero`) and per-section wrapping
time offsets. -/

/-- Chunk a byte stream into 4-byte words (`len(b) < 4` breaks the loop). -/
def v2Words : List ℕ → List ℕ
  | b0 :: b1 :: b2 :: b3 :: rest => word32 b0 b1 b2 b3 :: v2Words rest
  | _ => []

/-- The mutable state of the `parsePlutoV2` loop, including the eight output
lists.  `errors` counts executions of the corruption-recovery branch (the
source's `print ("Error detecting window")` followed by `first_zero = 1`),
so `errors = 0` states that the parser never lost sync after first locking. -/
structure V2State where
  first_zero : ℕ
  after_zero : Bool
  in_FFT : Bool
  in_avg : Bool
  after_hdr : Bool
  FFT_index : ℕ
  fft_time_offset : ℤ
  avg_time_offset : ℤ
  last_fft_time : ℕ
  last_avg_time : ℕ
  fixed_fft_time : ℚ
  fixed_avg_time : ℚ
  errors : ℕ
  magIdxList : List ℕ
  fixedAvgTimeList : List ℚ
  avgMagnitudeList : List ℕ
  fftNoList : List ℕ
  fftIndexList : List ℕ
  fixedFftTimeList : List ℚ
  realList : List ℤ
  imagList : List ℤ
  deriving Repr, DecidableEq

def initV2 : V2State :=
  { first_zero := 0, after_zero := false, in_FFT := true, in_avg := false
    after_hdr := false, FFT_index := 0
    fft_time_offset := 0, avg_time_offset := 0
    last_fft_time := 0, last_avg_time := 0
    fixed_fft_time := 0, fixed_avg_time := 0, errors := 0
    magIdxList := [], fixedAvgTimeList := [], avgMagnitudeList := []
    fftNoList := [], fftIndexList := [], fixedFftTimeList := []
    realList := [], imagList := [] }

/-- The part of the `parsePlutoV2` loop body from the end-of-frame test on
(source lines 93-147), reached either when already locked or by fall-through
from the sync block on the locking header.  Bit fields of `value` are embedded
arithmetically: `value >> 31 & 1` is `value / 2^31 % 2`, `value >> 30 & 1` is
`value / 2^30 % 2`, `value & 0x3FFFFFFF` is `value % 2^30`,
`value & 0x3FF` is `value % 2^10`, and `time & 0x3FFFFFFE` clears the lowest
bit of the (30-bit) `time`, i.e. equals `time - time % 2`. -/
def v2Locked (FFT_size : ℕ) (ts : ℚ) (s : V2State) (value : ℕ) : V2State :=
  let imag : ℤ := toInt16 (value % 65536)
  let real : ℤ := toInt16 (value / 65536)
  let is_hdr : ℕ := value / 2 ^ 31 % 2
  let is_avg : ℕ := value / 2 ^ 30 % 2
  let time : ℕ := value % 2 ^ 30
  let index : ℕ := value % 2 ^ 10
  if (s.in_FFT = true ∧ value = 0) ∨
      (s.in_avg = true ∧ s.FFT_index = FFT_size ∧ value = 0) then
    { s with after_zero := true }
  else if s.after_zero = true then
    if value = 0 then
      { s with first_zero := 1, errors := s.errors + 1, after_zero := false }
    else if is_hdr = 1 then
      if is_avg = 1 then
        let s :=
          if time < s.last_avg_time then
            { s with avg_time_offset := s.avg_time_offset + 2 ^ 30 }
          else s
        { s with last_avg_time := time
                 fixed_avg_time :=
                   ((((time - time % 2 : ℕ) : ℤ) + s.avg_time_offset : ℤ) : ℚ) * ts
                 FFT_index := 0, in_avg := true, in_FFT := false
                 after_zero := false }
      else
        let s :=
          if time < s.last_fft_time then
            { s with fft_time_offset := s.fft_time_offset + 2 ^ 30 }
          else s
        { s with last_fft_time := time
                 fixed_fft_time := ((((time : ℕ) : ℤ) + s.fft_time_offset : ℤ) : ℚ) * ts
                 in_avg := false, in_FFT := true, after_hdr := true
                 after_zero := false }
    else
      { s with FFT_index := index, after_zero := false }
  else
    if s.in_avg = true then
      { s with magIdxList := s.magIdxList ++ [s.FFT_index]
               avgMagnitudeList := s.avgMagnitudeList ++ [index]
               fixedAvgTimeList := s.fixedAvgTimeList ++ [s.fixed_avg_time]
               FFT_index := s.FFT_index + 1 }
    else if s.after_hdr = true then
      { s with FFT_index := index, after_hdr := false }
    else
      { s with fftNoList := s.fftNoList ++ [time]
               fftIndexList := s.fftIndexList ++ [s.FFT_index]
               fixedFftTimeList := s.fixedFftTimeList ++ [s.fixed_fft_time]
               realList := s.realList ++ [real]
               imagList := s.imagList ++ [imag]
               FFT_index := s.FFT_index + 1 }

/-- One iteration of the `parsePlutoV2` loop body: the `first_zero` sync
automaton (source lines 73-91), falling through into `v2Locked` exactly as the
source falls through to line 93 when locked or on the locking header. -/
def v2Step (FFT_size : ℕ) (ts : ℚ) (s : V2State) (value : ℕ) : V2State :=
  let is_hdr : ℕ := value / 2 ^ 31 % 2
  let time : ℕ := value % 2 ^ 30
  if s.first_zero ≠ 2 then
    if s.first_zero = 0 then
      if value = 0 then { s with first_zero := 1 } else s
    else if value = 0 then s
    else if is_hdr ≠ 1 then { s with first_zero := 0 }
    else
      v2Locked FFT_size ts
        { s with first_zero := 2, after_zero := true
                 fft_time_offset := -(time : ℤ), avg_time_offset := -(time : ℤ) }
        value
  else
    v2Locked FFT_size ts s value

/-- `parsePlutoV2`: fold the loop body over the 4-byte words of the input
byte stream.  `bytes` stands for the contents of the file named by the
source's `filename` argument. -/
def parsePlutoV2 (bytes : List ℕ) (fft_size_log2 : ℕ) : V2State :=
  (v2Words bytes).foldl (v2Step (2 ^ fft_size_log2) (tsScale fft_size_log2)) initV2

/-! ## Timestamp bounds used by the monotonicity proofs -/

/-- The reconstructed-tick bound for the FFT section: the value
`(last_fft_time + fft_time_offset) * ts` that the next emitted FFT sample
would carry if the current header were re-used. -/
def fftBound (ts : ℚ) (s : V2State) : ℚ :=
  (((s.last_fft_time : ℤ) + s.fft_time_offset : ℤ) : ℚ) * ts

/-- The reconstructed-tick bound for the average section, with the lowest time
bit cleared as in the source (`time & 0x3FFFFFFE`). -/
def avgBound (ts : ℚ) (s : V2State) : ℚ :=
  ((((s.last_avg_time - s.last_avg_time % 2 : ℕ) : ℤ) + s.avg_time_offset : ℤ) : ℚ) * ts

/-- Invariant of the `parsePlutoV2` loop used to prove that emitted
timestamps are non-decreasing per section and that the corruption-recovery
branch is unreachable. -/
structure V2Inv (FFT_size : ℕ) (ts : ℚ) (s : V2State) : Prop where
  lastFft : s.last_fft_time < 2 ^ 30
  lastAvg : s.last_avg_time < 2 ^ 30
  fftChain : List.Chain' (· ≤ ·) s.fixedFftTimeList
  fftLe : ∀ x ∈ s.fixedFftTimeList, x ≤ fftBound ts s
  avgChain : List.Chain' (· ≤ ·) s.fixedAvgTimeList
  avgLe : ∀ x ∈ s.fixedAvgTimeList, x ≤ avgBound ts s
  fixedFft : s.in_avg = false → s.fixed_fft_time = fftBound ts s
  fixedAvg : s.in_avg = true → s.fixed_avg_time = avgBound ts s
  zeroShape : s.after_zero = true →
    s.in_FFT = true ∨ (s.in_avg = true ∧ s.FFT_index = FFT_size)
  search : s.first_zero ≠ 2 →
    s.fixedFftTimeList = [] ∧ s.fixedAvgTimeList = [] ∧
      s.in_FFT = true ∧ s.in_avg = false
  errZero : s.errors = 0

/-- Corresponding bound for the V1 FFT section. -/
def fftBound1 (ts : ℚ) (s : V1State) : ℚ :=
  (((s.last_fft_time : ℤ) + s.fft_time_offset : ℤ) : ℚ) * ts

/-- Corresponding bound for the V1 average section (`time & (time_mask-1)`
clears the lowest bit). -/
def avgBound1 (ts : ℚ) (s : V1State) : ℚ :=
  ((((s.last_avg_time - s.last_avg_time % 2 : ℕ) : ℤ) + s.avg_time_offset : ℤ) : ℚ) * ts

/-- Invariant of the `parsePlutoV1` loop. -/
structure V1Inv (ts : ℚ) (s : V1State) : Prop where
  lastFft : s.last_fft_time < 2 ^ 21
  lastAvg : s.last_avg_time < 2 ^ 21
  fftChain : List.Chain' (· ≤ ·) s.fixedFftTimeList
  fftLe : ∀ x ∈ s.fixedFftTimeList, x ≤ fftBound1 ts s
  avgChain : List.Chain' (· ≤ ·) s.fixedAvgTimeList
  avgLe : ∀ x ∈ s.fixedAvgTimeList, x ≤ avgBound1 ts s
  start : s.n = 0 → s.fixedFftTimeList = [] ∧ s.fixedAvgTimeList = []

/-! ## Threshold calibration (`computeShiftThresholdsPluto`)

The shift-selection loop decodes one capture per shift value, aggregates the
average magnitudes into a `(windows, nfft)` matrix, takes per-bin medians,
FFT-shifts, smooths with an 8-wide box filter (`np.convolve(..., mode='same')`,
zero-padded) and checks `np.sum(smooth2SidedMediandB < 0) == 0`.  The
polynomial fit performed inside the loop does not influence the loop control
and is not modelled. -/

/-- `W` rows of `nfft` entries each, taken from the front of `l`
(`reshape((-1, nfft))` of a list of length `W * nfft`). -/
def chunkRows (nfft : ℕ) : ℕ → List ℕ → List (List ℕ)
  | 0, _ => []
  | w + 1, l => l.take nfft :: chunkRows nfft w (l.drop nfft)

/-- Source lines 340-345: truncate `avgMagnitudeList` to a whole number of
windows, reshape to `(-1, nfft)` and subtract 1 from every element.  For
fewer than `nfft` inputs numpy's reshape yields a `(0, nfft)` matrix (the
unknown dimension resolves to `0` because the known dimension `nfft` is
non-zero), hence the empty list of rows. -/
def aggregate (mags : List ℕ) (nfft : ℕ) : List (List ℤ) :=
  let truncated := mags.take (mags.length / nfft * nfft)
  (chunkRows nfft (truncated.length / nfft) truncated).map
    fun row => List.map (fun m : ℕ => (m : ℤ) - 1) row

/-- Aggregation as §4.4 of the spec words it, for comparison with
`aggregate`.  Modelled from the spec: "Return the matrix, or an error if
fewer than one full window was captured" — the error case is `none`. -/
def aggregateSpec (mags : List ℕ) (nfft : ℕ) : Option (List (List ℤ)) :=
  if mags.length < nfft then none else some (aggregate mags nfft)

/-- `np.median` of a list of rationals.  Values are `Option ℚ` with `none`
playing the role of IEEE NaN: on a zero-length axis `np.median` emits a
RuntimeWarning and yields NaN, so `median [] = none`; otherwise the result is
the middle element of the sorted list (the mean of the two middle elements
for an even count). -/
def median (l : List ℚ) : Option ℚ :=
  if l = [] then none
  else
    let sorted := List.insertionSort (· ≤ ·) l
    if l.length % 2 = 1 then some (sorted.getD (l.length / 2) 0)
    else some ((sorted.getD (l.length / 2 - 1) 0 + sorted.getD (l.length / 2) 0) / 2)

/-- Column `i` of `np.median(mat, axis=0)` (`none` = NaN, for the empty
matrix of a capture shorter than one window). -/
def colMedian (mat : List (List ℤ)) (i : ℕ) : Option ℚ :=
  median (mat.map fun row => ((row.getD i 0 : ℤ) : ℚ))

/-- `np.median(avgMagnitudeMat, axis=0)` as a vector over the `nfft` bins. -/
def medianVec (mags : List ℕ) (nfft : ℕ) : List (Option ℚ) :=
  (List.range nfft).map (colMedian (aggregate mags nfft))

/-- `np.fft.fftshift` of a vector: roll by `length / 2`. -/
def fftshift (l : List (Option ℚ)) : List (Option ℚ) :=
  l.drop (l.length - l.length / 2) ++ l.take (l.length - l.length / 2)

/-- Zero-padded element access used by the `mode='same'` convolution:
`getPad l i t` is `l[i + t - 4]` with out-of-range indices reading the real
padding value `0` (numpy pads with zeros, not NaN). -/
def getPad (l : List (Option ℚ)) (i t : ℕ) : Option ℚ :=
  if 4 ≤ i + t then l.getD (i + t - 4) (some 0) else some 0

/-- IEEE addition on `Option ℚ`: NaN (`none`) absorbs. -/
def naddQ : Option ℚ → Option ℚ → Option ℚ
  | some a, some b => some (a + b)
  | _, _ => none

/-- `np.convolve(l, np.ones(8)/8, mode='same')`: entry `i` is the mean of the
(zero-padded) window `l[i-4 .. i+3]`; any NaN in the window makes the entry
NaN. -/
def boxSmooth (l : List (Option ℚ)) : List (Option ℚ) :=
  (List.range l.length).map fun i =>
    (((List.range 8).map fun t => getPad l i t).foldr naddQ (some 0)).map (· / 8)

/-- `smooth2SidedMedian` of one capture: box-smoothed, FFT-shifted per-bin
median of the aggregated magnitude matrix. -/
def smoothVec (mags : List ℕ) (nfft : ℕ) : List (Option ℚ) :=
  boxSmooth (fftshift (medianVec mags nfft))

/-- The elementwise test `10 * np.log10 x < 0` under IEEE-754 semantics:
for NaN input (`none`) `log10` returns NaN and every comparison with NaN is
false; for `x < 0`, `log10` likewise returns NaN; for `x = 0` it returns
`-inf`, which is `< 0`; for `x > 0` the sign of `log10 x` is the sign of
`x - 1` (and `smoothVec` values are multiples of `1/8`, so the float rounding
of `log10` cannot change the sign). -/
def log10Neg : Option ℚ → Bool
  | none => false
  | some x => if x < 0 then false else if x = 0 then true else decide (x < 1)

/-- The loop's acceptance check `np.sum(smooth2SidedMediandB < 0) == 0` for
the capture of one shift value. -/
def acceptShift (mags : List ℕ) (nfft : ℕ) : Bool :=
  (smoothVec mags nfft).countP log10Neg == 0

/-- The `for idx in range(numShifts)` loop over the remaining shift values:
returns the final `shiftValue` (the shift accepted by `break`, or the last
shift tried) together with the list of shifts whose capture file was opened.
`cur` is the previously assigned `shiftValue`. -/
def shiftLoop (captures : ℕ → List ℕ) (nfft : ℕ) : List ℕ → ℕ → ℕ × List ℕ
  | [], cur => (cur, [])
  | sft :: rest, _ =>
    if acceptShift (captures sft) nfft then (sft, [sft])
    else
      let r := shiftLoop captures nfft rest sft
      (r.1, sft :: r.2)

/-- The shift-selection loop of `computeShiftThresholdsPluto` over
`shiftValueVec = np.arange(7, -1, -1)`.  `captures sft` stands for the
`avgMagnitudeList` decoded (by `parsePlutoV1` or `parsePlutoV2`) from the
capture file `avgSamples.dat_<sft>_<rxgain>`; the first component of the
result is the returned `shiftValue` and the second is the instrumented list
of shifts whose file the loop opened. -/
def computeShiftThresholdsPluto (captures : ℕ → List ℕ) (nfft : ℕ) : ℕ × List ℕ :=
  shiftLoop captures nfft [7, 6, 5, 4, 3, 2, 1, 0] 0

/-! ## Config readback (`getThresholdBinShiftFromFile`) -/

/-- `binShift.astype(int)`: numpy's cast of a float to int64.  Exact for
values representable in int64; for out-of-range values the cast is undefined
behaviour in numpy, and on the x86 builds the conversion instruction yields
the "integer indefinite" value `INT64_MIN` (saturating platforms yield
`INT64_MAX`; either way the cast lands strictly below any float
`≥ 2^63`). -/
def astypeInt64 (z : ℤ) : ℤ :=
  if -(2 ^ 63) ≤ z ∧ z < 2 ^ 63 then z else -(2 ^ 63)

/-- The shift choice and overflow warning of `getThresholdBinShiftFromFile`
(source lines 456-464), given the `ConservativeShift` (a float in the file,
modelled exactly as `ℚ`) and (integer) `SuggestedShift` read from the config
file: `binShift` is `ceil(ConservativeShift)` or `ceil(SuggestedShift)`
according to `conserveShift`, cast to int64 by `astype(int)`, and the boolean
is the `binShift < ConservativeShift` test guarding the
possible-numeric-overflow warning.  (The int-to-float64 rounding inside
`np.ceil(SuggestedShift)` for `|SuggestedShift| > 2^53` is not modelled;
calibration-produced configs hold suggested shifts in `0..7`.) -/
def getThresholdBinShiftFromFile (ConservativeShift : ℚ) (SuggestedShift : ℤ)
    (conserveShift : Bool) : ℤ × Bool :=
  let binShift : ℤ :=
    astypeInt64 (if conserveShift then ⌈ConservativeShift⌉ else ⌈(SuggestedShift : ℚ)⌉)
  (binShift, decide ((binShift : ℚ) < ConservativeShift))

/-! ## `clipCheck` (autoThreshComputePluto.py)

`clipCheck` reads `clipCheck.iq` as `cshort` pairs; `samples` stands for the
decoded list of `(real, imag)` pairs.  Python's `int()` on a float truncates
toward zero (`pyInt`), and the dB computation is exact-real
(`20 * log10 (2000 / max)`). -/

/-- `np.max(np.abs(...))` over a list (as the components are integral, the
float maximum is exact).  On `[]` numpy raises; the fold returns `0`. -/
def absMaxList (l : List ℤ) : ℤ :=
  l.foldr (fun x m => max |x| m) 0

/-- Python `int()` applied to a float: truncation toward zero. -/
noncomputable def pyInt (x : ℝ) : ℤ :=
  if 0 ≤ x then ⌊x⌋ else ⌈x⌉

open Classical in
/-- `clipCheck(args)` with `samples` the decoded `(real, imag)` pairs of
`<avgFolder>/clipCheck.iq` and `rxgain = args.rxgain`.  The result is
`Option ℤ`, with `none` standing for the raised exceptions of the source:
`np.max` of an empty capture raises ValueError, and for an all-zero capture
`2000 / 0.0` is `inf`, `inf < 2` is false, and `int(rxgain + inf)` raises
OverflowError. -/
noncomputable def clipCheck (samples : List (ℤ × ℤ)) (rxgain : ℤ) : Option ℤ :=
  if samples = [] then none
  else
    let maxReal := absMaxList (samples.map Prod.fst)
    let maxImag := absMaxList (samples.map Prod.snd)
    if 2000 < maxImag ∨ 2000 < maxReal then some (pyInt ((rxgain : ℝ) / 2))
    else
      let maxValue := max maxImag maxReal
      if maxValue = 0 then none
      else
        let dBConversion : ℝ := 20 * Real.logb 10 (2000 / (maxValue : ℝ))
        if dBConversion < 2 then some rxgain
        else some (pyInt ((rxgain : ℝ) + dBConversion))

open Classical in
/-- The return value that claim C9 (and §6 of the spec) ascribes to
`clipCheck`: `rxgain/2` (exact division) on clipping, `rxgain` for small dB
headroom, else `rxgain + round(20·log10(2000/max))`. -/
noncomputable def clipCheckClaim (samples : List (ℤ × ℤ)) (rxgain : ℤ) : ℝ :=
  let maxReal := absMaxList (samples.map Prod.fst)
  let maxImag := absMaxList (samples.map Prod.snd)
  if 2000 < maxImag ∨ 2000 < maxReal then (rxgain : ℝ) / 2
  else
    let maxValue := max maxImag maxReal
    let dBConversion : ℝ := 20 * Real.logb 10 (2000 / (maxValue : ℝ))
    if dBConversion < 2 then (rxgain : ℝ) else (rxgain : ℝ) + (round dBConversion : ℤ)

/-! ## Concrete inputs used by the end-to-end theorems -/

/-- Claim C2's input: the single V1 record `0A 00 05 00 01 00 00 00`. -/
def c2bytes : List ℕ := [0x0A, 0x00, 0x05, 0x00, 0x01, 0x00, 0x00, 0x00]

/-- A V2 stream: zero, an average header with `time = 0`, then the payload
word `1024`. -/
def c1bytes : List ℕ := [0, 0, 0, 0, 0, 0, 0, 0xC0, 0, 4, 0, 0]

/-- A V2 stream: zero, an FFT header with `time = 0`, the index word `1023`,
then two data words `0x00050006`. -/
def c6bytes : List ℕ :=
  [0, 0, 0, 0, 0, 0, 0, 0x80, 0xFF, 3, 0, 0, 6, 0, 5, 0, 6, 0, 5, 0]

/-- A small V2 stream that locks and emits one FFT sample (used to witness
hypotheses about `parsePlutoV2`). -/
def v2SmallBytes : List ℕ :=
  [0, 0, 0, 0, 0, 0, 0, 0x80, 1, 0, 0, 0, 6, 0, 5, 0]

/-- A V2 stream that locks and then sees an end-of-frame zero, leaving the
decoder in the locked, `after_zero = true` state. -/
def c6wBytes : List ℕ := [0, 0, 0, 0, 0, 0, 0, 0x80, 0, 0, 0, 0]

/-- Capture environment for the shift-selection witnesses (`nfft = 4`):
shifts 7 and 6 fail the acceptance check (two windows whose per-bin medians
are `1/2` after the `- 1`, so every smoothed value lies in `(0, 1)` and every
dB value is a finite negative number), the remaining shifts pass (all
magnitudes 9). -/
def witnessCaptures (sft : ℕ) : List ℕ :=
  if 6 ≤ sft then [1, 1, 1, 1, 2, 2, 2, 2] else [9, 9, 9, 9]

/-- An all-zero capture: after the `- 1` every matrix entry is `-1`, so every
smoothed value is negative and every dB value is NaN. -/
def zeroCapture : List ℕ := [0, 0, 0, 0, 0, 0, 0, 0]

/-! # Theorems -/

theorem tsScale_pos (L : ℕ) : 0 < tsScale L := by
  unfold tsScale tickNs
  positivity

/-- Appending an upper bound to a `≤`-chain keeps it a chain. -/
theorem chain_le_snoc {l : List ℚ} {x : ℚ}
    (hc : List.Chain' (· ≤ ·) l) (hb : ∀ y ∈ l, y ≤ x) :
    List.Chain' (· ≤ ·) (l ++ [x]) := by
  induction l with
  | nil => simp
  | cons a t ih =>
    rcases t with _ | ⟨b, u⟩
    · exact List.chain'_pair.2 (hb a (by simp))
    · rw [List.cons_append]
      refine List.Chain'.cons ?_ ?_
      · exact List.chain'_cons.1 hc |>.1
      · exact ih (List.chain'_cons.1 hc).2 fun y hy => hb y (List.mem_cons_of_mem a hy)

/-- Clearing the lowest bit is monotone. -/
theorem clear2_mono {a b : ℕ} (h : a ≤ b) : a - a % 2 ≤ b - b % 2 := by
  have ha : a - a % 2 = 2 * (a / 2) := by omega
  have hb : b - b % 2 = 2 * (b / 2) := by omega
  have := Nat.div_le_div_right (c := 2) h
  omega

/-- The wrap-corrected tick count never decreases at a section header:
`last + off ≤ t + off'` where `off'` adds `M` exactly when `t < last`. -/
theorem wrap_tick_mono (M : ℤ) (last t : ℕ) (off : ℤ) (h : (last : ℤ) < M) :
    (last : ℤ) + off ≤ (t : ℤ) + (if t < last then off + M else off) := by
  split_ifs with hw
  · have ht : (0 : ℤ) ≤ (t : ℤ) := Int.natCast_nonneg t
    linarith
  · have : (last : ℤ) ≤ (t : ℤ) := by
      exact_mod_cast Nat.le_of_not_lt hw
    linarith

/-- Variant of `wrap_tick_mono` for the average section, whose reconstructed
time clears the lowest bit of the wire counter while the wrap comparison uses
the raw counter. -/
theorem wrap_tick_mono_even (M : ℤ) (last t : ℕ) (off : ℤ) (h : (last : ℤ) < M) :
    ((last - last % 2 : ℕ) : ℤ) + off ≤
      ((t - t % 2 : ℕ) : ℤ) + (if t < last then off + M else off) := by
  split_ifs with hw
  · have h1 : last - last % 2 ≤ last := Nat.sub_le _ _
    have h2 : ((last - last % 2 : ℕ) : ℤ) ≤ (last : ℤ) := by exact_mod_cast h1
    have h3 : (0 : ℤ) ≤ ((t - t % 2 : ℕ) : ℤ) := Int.natCast_nonneg _
    linarith
  · have h1 : last - last % 2 ≤ t - t % 2 := clear2_mono (Nat.le_of_not_lt hw)
    have h2 : ((last - last % 2 : ℕ) : ℤ) ≤ ((t - t % 2 : ℕ) : ℤ) := by exact_mod_cast h1
    linarith

/-- Scale a tick inequality by the non-negative tick duration. -/
theorem tick_scale_le {x : ℚ} {A B : ℤ} {ts : ℚ}
    (hx : x ≤ (A : ℚ) * ts) (hAB : A ≤ B) (hts : 0 ≤ ts) : x ≤ (B : ℚ) * ts := by
  refine le_trans hx ?_
  have : (A : ℚ) ≤ (B : ℚ) := by exact_mod_cast hAB
  exact mul_le_mul_of_nonneg_right this hts

/-- `V1Inv` is stable under rewriting both time offsets when no sample has
been emitted yet (the very-first-record initialisation). -/
theorem V1Inv.offsets_reset {ts : ℚ} {s : V1State} (h : V1Inv ts s)
    (hfft : s.fixedFftTimeList = []) (havg : s.fixedAvgTimeList = [])
    (a b : ℤ) :
    V1Inv ts { s with fft_time_offset := a, avg_time_offset := b } := by
  refine ⟨h.lastFft, h.lastAvg, ?_, ?_, ?_, ?_, ?_⟩ <;>
    simp [hfft, havg]

/-- Emitting one average sample preserves `V1Inv`, provided the new
reconstructed tick count dominates the previous bound. -/
theorem V1Inv.avg_append {ts : ℚ} (hts : 0 ≤ ts) {s : V1State} (h : V1Inv ts s)
    (t idx mag : ℕ) (off' : ℤ) (ht : t < 2 ^ 21)
    (hoff : ((s.last_avg_time - s.last_avg_time % 2 : ℕ) : ℤ) + s.avg_time_offset ≤
      ((t - t % 2 : ℕ) : ℤ) + off') :
    V1Inv ts
      { s with n := s.n + 1, avg_time_offset := off', last_avg_time := t
               magIdxList := s.magIdxList ++ [idx]
               fixedAvgTimeList :=
                 s.fixedAvgTimeList ++ [((((t - t % 2 : ℕ) : ℤ) + off' : ℤ) : ℚ) * ts]
               avgMagnitudeList := s.avgMagnitudeList ++ [mag] } := by
  have hb : ∀ y ∈ s.fixedAvgTimeList, y ≤ ((((t - t % 2 : ℕ) : ℤ) + off' : ℤ) : ℚ) * ts :=
    fun y hy => tick_scale_le (h.avgLe y hy) hoff hts
  refine ⟨h.lastFft, ht, h.fftChain, ?_, ?_, ?_, ?_⟩
  · intro x hx
    exact h.fftLe x hx
  · exact chain_le_snoc h.avgChain hb
  · intro x hx
    unfold avgBound1
    dsimp only
    rcases List.mem_append.1 hx with hx | hx
    · exact hb x hx
    · simp only [List.mem_singleton] at hx
      exact le_of_eq hx
  · intro hn
    exact absurd hn (Nat.succ_ne_zero _)

/-- Emitting one FFT sample preserves `V1Inv`, provided the new reconstructed
tick count dominates the previous bound. -/
theorem V1Inv.fft_append {ts : ℚ} (hts : 0 ≤ ts) {s : V1State} (h : V1Inv ts s)
    (t no idx : ℕ) (re im : ℤ) (off' : ℤ) (ht : t < 2 ^ 21)
    (hoff : ((s.last_fft_time : ℕ) : ℤ) + s.fft_time_offset ≤ (t : ℤ) + off') :
    V1Inv ts
      { s with n := s.n + 1, fft_time_offset := off', last_fft_time := t
               fftNoList := s.fftNoList ++ [no]
               fftIndexList := s.fftIndexList ++ [idx]
               fixedFftTimeList :=
                 s.fixedFftTimeList ++ [((((t : ℕ) : ℤ) + off' : ℤ) : ℚ) * ts]
               realList := s.realList ++ [re]
               imagList := s.imagList ++ [im] } := by
  have hb : ∀ y ∈ s.fixedFftTimeList, y ≤ ((((t : ℕ) : ℤ) + off' : ℤ) : ℚ) * ts :=
    fun y hy => tick_scale_le (h.fftLe y hy) hoff hts
  refine ⟨ht, h.lastAvg, ?_, ?_, h.avgChain, ?_, ?_⟩
  · exact chain_le_snoc h.fftChain hb
  · intro x hx
    unfold fftBound1
    dsimp only
    rcases List.mem_append.1 hx with hx | hx
    · exact hb x hx
    · simp only [List.mem_singleton] at hx
      exact le_of_eq hx
  · intro x hx
    exact h.avgLe x hx
  · intro hn
    exact absurd hn (Nat.succ_ne_zero _)

/-- One `parsePlutoV1` loop iteration preserves the invariant. -/
theorem v1Step_inv (ts : ℚ) (hts : 0 ≤ ts) (s : V1State) (r : V1Record)
    (h : V1Inv ts s) : V1Inv ts (v1Step ts s r) := by
  have htime : r.hdr % 2 ^ 21 < 2 ^ 21 := Nat.mod_lt _ (by norm_num)
  have hA : ((s.last_avg_time : ℕ) : ℤ) < (2 ^ 21 : ℤ) := by exact_mod_cast h.lastAvg
  have hF : ((s.last_fft_time : ℕ) : ℤ) < (2 ^ 21 : ℤ) := by exact_mod_cast h.lastFft
  unfold v1Step
  simp only []
  split_ifs with h1 h2 h3 h4 h5 h6 h7
  · dsimp only at h3 ⊢
    have hE := h.start h2
    have hoff := wrap_tick_mono_even (2 ^ 21 : ℤ) s.last_avg_time (r.hdr % 2 ^ 21)
      (-(r.hdr % 2 ^ 21 : ℕ) : ℤ) hA
    rw [if_pos h3] at hoff
    exact V1Inv.avg_append hts
      (V1Inv.offsets_reset h hE.1 hE.2 (-(r.hdr % 2 ^ 21 : ℕ) : ℤ) (-(r.hdr % 2 ^ 21 : ℕ) : ℤ))
      (r.hdr % 2 ^ 21) (r.hdr / 2 ^ 21 % 1024) r.avg_magnitude
      (-(r.hdr % 2 ^ 21 : ℕ) + 2 ^ 21 : ℤ) htime hoff
  · dsimp only at h3 ⊢
    have hE := h.start h2
    have hoff := wrap_tick_mono_even (2 ^ 21 : ℤ) s.last_avg_time (r.hdr % 2 ^ 21)
      (-(r.hdr % 2 ^ 21 : ℕ) : ℤ) hA
    rw [if_neg h3] at hoff
    exact V1Inv.avg_append hts
      (V1Inv.offsets_reset h hE.1 hE.2 (-(r.hdr % 2 ^ 21 : ℕ) : ℤ) (-(r.hdr % 2 ^ 21 : ℕ) : ℤ))
      (r.hdr % 2 ^ 21) (r.hdr / 2 ^ 21 % 1024) r.avg_magnitude
      (-(r.hdr % 2 ^ 21 : ℕ) : ℤ) htime hoff
  · dsimp only
    have hoff := wrap_tick_mono_even (2 ^ 21 : ℤ) s.last_avg_time (r.hdr % 2 ^ 21)
      s.avg_time_offset hA
    rw [if_pos h4] at hoff
    exact V1Inv.avg_append hts h (r.hdr % 2 ^ 21) (r.hdr / 2 ^ 21 % 1024) r.avg_magnitude
      (s.avg_time_offset + 2 ^ 21) htime hoff
  · dsimp only
    have hoff := wrap_tick_mono_even (2 ^ 21 : ℤ) s.last_avg_time (r.hdr % 2 ^ 21)
      s.avg_time_offset hA
    rw [if_neg h4] at hoff
    exact V1Inv.avg_append hts h (r.hdr % 2 ^ 21) (r.hdr / 2 ^ 21 % 1024) r.avg_magnitude
      s.avg_time_offset htime hoff
  · dsimp only at h6 ⊢
    have hE := h.start h5
    have hoff := wrap_tick_mono (2 ^ 21 : ℤ) s.last_fft_time (r.hdr % 2 ^ 21)
      (-(r.hdr % 2 ^ 21 : ℕ) : ℤ) hF
    rw [if_pos h6] at hoff
    exact V1Inv.fft_append hts
      (V1Inv.offsets_reset h hE.1 hE.2 (-(r.hdr % 2 ^ 21 : ℕ) : ℤ) (-(r.hdr % 2 ^ 21 : ℕ) : ℤ))
      (r.hdr % 2 ^ 21) (r.hdr % 2 ^ 21 % 2) (r.hdr / 2 ^ 21 % 1024) r.real r.imag
      (-(r.hdr % 2 ^ 21 : ℕ) + 2 ^ 21 : ℤ) htime hoff
  · dsimp only at h6 ⊢
    have hE := h.start h5
    have hoff := wrap_tick_mono (2 ^ 21 : ℤ) s.last_fft_time (r.hdr % 2 ^ 21)
      (-(r.hdr % 2 ^ 21 : ℕ) : ℤ) hF
    rw [if_neg h6] at hoff
    exact V1Inv.fft_append hts
      (V1Inv.offsets_reset h hE.1 hE.2 (-(r.hdr % 2 ^ 21 : ℕ) : ℤ) (-(r.hdr % 2 ^ 21 : ℕ) : ℤ))
      (r.hdr % 2 ^ 21) (r.hdr % 2 ^ 21 % 2) (r.hdr / 2 ^ 21 % 1024) r.real r.imag
      (-(r.hdr % 2 ^ 21 : ℕ) : ℤ) htime hoff
  · dsimp only
    have hoff := wrap_tick_mono (2 ^ 21 : ℤ) s.last_fft_time (r.hdr % 2 ^ 21)
      s.fft_time_offset hF
    rw [if_pos h7] at hoff
    exact V1Inv.fft_append hts h (r.hdr % 2 ^ 21) (r.hdr % 2 ^ 21 % 2)
      (r.hdr / 2 ^ 21 % 1024) r.real r.imag (s.fft_time_offset + 2 ^ 21) htime hoff
  · dsimp only
    have hoff := wrap_tick_mono (2 ^ 21 : ℤ) s.last_fft_time (r.hdr % 2 ^ 21)
      s.fft_time_offset hF
    rw [if_neg h7] at hoff
    exact V1Inv.fft_append hts h (r.hdr % 2 ^ 21) (r.hdr % 2 ^ 21 % 2)
      (r.hdr / 2 ^ 21 % 1024) r.real r.imag s.fft_time_offset htime hoff

theorem initV1_inv (ts : ℚ) : V1Inv ts initV1 := by
  refine ⟨by norm_num [initV1], by norm_num [initV1], ?_, ?_, ?_, ?_, ?_⟩ <;>
    simp [initV1]

theorem foldl_v1_inv (ts : ℚ) (hts : 0 ≤ ts) :
    ∀ (rs : List V1Record) (s : V1State), V1Inv ts s →
      V1Inv ts (rs.foldl (v1Step ts) s)
  | [], _, h => h
  | r :: rest, s, h => foldl_v1_inv ts hts rest _ (v1Step_inv ts hts s r h)

/-- The `parsePlutoV1` invariant holds for every input byte stream. -/
theorem parsePlutoV1_inv (bytes : List ℕ) (L : ℕ) :
    V1Inv (tsScale L) (parsePlutoV1 bytes L) :=
  foldl_v1_inv _ (le_of_lt (tsScale_pos L)) _ _ (initV1_inv _)

/-- An end-of-frame zero word only raises `after_zero`; the invariant is
preserved because the branch condition provides the frame shape. -/
theorem V2Inv.frame_end {F : ℕ} {ts : ℚ} {s : V2State} (h : V2Inv F ts s)
    (hfz : s.first_zero = 2)
    (hshape : s.in_FFT = true ∨ (s.in_avg = true ∧ s.FFT_index = F)) :
    V2Inv F ts { s with after_zero := true } := by
  refine ⟨h.lastFft, h.lastAvg, h.fftChain, ?_, h.avgChain, ?_, ?_, ?_, ?_, ?_, h.errZero⟩
  · exact fun x hx => h.fftLe x hx
  · exact fun x hx => h.avgLe x hx
  · exact fun hin => h.fixedFft hin
  · exact fun hin => h.fixedAvg hin
  · exact fun _ => hshape
  · intro hne
    exact absurd hfz hne

/-- An index-resync word (or the index word after an FFT header) only writes
`FFT_index` and clears flags. -/
theorem V2Inv.set_index {F : ℕ} {ts : ℚ} {s : V2State} (h : V2Inv F ts s)
    (hfz : s.first_zero = 2) (idx : ℕ) (az ah : Bool) (haz : az = false) :
    V2Inv F ts { s with FFT_index := idx, after_zero := az, after_hdr := ah } := by
  refine ⟨h.lastFft, h.lastAvg, h.fftChain, ?_, h.avgChain, ?_, ?_, ?_, ?_, ?_, h.errZero⟩
  · exact fun x hx => h.fftLe x hx
  · exact fun x hx => h.avgLe x hx
  · exact fun hin => h.fixedFft hin
  · exact fun hin => h.fixedAvg hin
  · intro hz
    dsimp only at hz
    rw [haz] at hz
    simp at hz
  · intro hne
    exact absurd hfz hne

/-- An average-section header: wrap-correct the offset, set the reconstructed
average time and reset `FFT_index`. -/
theorem v2_avg_header_inv {F : ℕ} {ts : ℚ} {s : V2State}
    (t : ℕ) (off' : ℤ) (ht : t < 2 ^ 30)
    (hfz : s.first_zero = 2) (hlastF : s.last_fft_time < 2 ^ 30)
    (hfc : List.Chain' (· ≤ ·) s.fixedFftTimeList)
    (hfl : ∀ x ∈ s.fixedFftTimeList, x ≤ fftBound ts s)
    (hac : List.Chain' (· ≤ ·) s.fixedAvgTimeList)
    (hal : ∀ x ∈ s.fixedAvgTimeList,
      x ≤ ((((t - t % 2 : ℕ) : ℤ) + off' : ℤ) : ℚ) * ts)
    (herr : s.errors = 0) :
    V2Inv F ts
      { s with avg_time_offset := off', last_avg_time := t
               fixed_avg_time := ((((t - t % 2 : ℕ) : ℤ) + off' : ℤ) : ℚ) * ts
               FFT_index := 0, in_avg := true, in_FFT := false
               after_zero := false } := by
  refine ⟨hlastF, ht, hfc, ?_, hac, ?_, ?_, ?_, ?_, ?_, herr⟩
  · exact fun x hx => hfl x hx
  · exact fun x hx => hal x hx
  · intro hin
    simp at hin
  · intro _
    rfl
  · intro hz
    simp at hz
  · intro hne
    exact absurd hfz hne

/-- An FFT-section header: wrap-correct the offset and set the reconstructed
FFT time. -/
theorem v2_fft_header_inv {F : ℕ} {ts : ℚ} {s : V2State}
    (t : ℕ) (off' : ℤ) (ht : t < 2 ^ 30)
    (hfz : s.first_zero = 2) (hlastA : s.last_avg_time < 2 ^ 30)
    (hfc : List.Chain' (· ≤ ·) s.fixedFftTimeList)
    (hfl : ∀ x ∈ s.fixedFftTimeList, x ≤ (((t : ℤ) + off' : ℤ) : ℚ) * ts)
    (hac : List.Chain' (· ≤ ·) s.fixedAvgTimeList)
    (hal : ∀ x ∈ s.fixedAvgTimeList, x ≤ avgBound ts s)
    (herr : s.errors = 0) :
    V2Inv F ts
      { s with fft_time_offset := off', last_fft_time := t
               fixed_fft_time := (((t : ℤ) + off' : ℤ) : ℚ) * ts
               in_avg := false, in_FFT := true, after_hdr := true
               after_zero := false } := by
  refine ⟨ht, hlastA, hfc, ?_, hac, ?_, ?_, ?_, ?_, ?_, herr⟩
  · exact fun x hx => hfl x hx
  · exact fun x hx => hal x hx
  · intro _
    rfl
  · intro hin
    simp at hin
  · intro hz
    simp at hz
  · intro hne
    exact absurd hfz hne

/-- Emitting an average payload sample appends `fixed_avg_time`, which equals
the current average bound. -/
theorem V2Inv.avg_emit {F : ℕ} {ts : ℚ} {s : V2State} (h : V2Inv F ts s)
    (hfz : s.first_zero = 2) (hin : s.in_avg = true) (hz : s.after_zero = false)
    (mag : ℕ) :
    V2Inv F ts
      { s with magIdxList := s.magIdxList ++ [s.FFT_index]
               avgMagnitudeList := s.avgMagnitudeList ++ [mag]
               fixedAvgTimeList := s.fixedAvgTimeList ++ [s.fixed_avg_time]
               FFT_index := s.FFT_index + 1 } := by
  have hfix := h.fixedAvg hin
  refine ⟨h.lastFft, h.lastAvg, h.fftChain, ?_, ?_, ?_, ?_, ?_, ?_, ?_, h.errZero⟩
  · exact fun x hx => h.fftLe x hx
  · exact chain_le_snoc h.avgChain (fun y hy => hfix ▸ h.avgLe y hy)
  · intro x hx
    rcases List.mem_append.1 hx with hx | hx
    · exact h.avgLe x hx
    · simp only [List.mem_singleton] at hx
      subst hx
      exact le_of_eq hfix
  · exact fun hin' => h.fixedFft hin'
  · exact fun _ => hfix
  · intro hz'
    dsimp only at hz'
    rw [hz] at hz'
    simp at hz'
  · intro hne
    exact absurd hfz hne

/-- Emitting an FFT payload sample appends `fixed_fft_time`, which equals the
current FFT bound. -/
theorem V2Inv.fft_emit {F : ℕ} {ts : ℚ} {s : V2State} (h : V2Inv F ts s)
    (hfz : s.first_zero = 2) (hin : s.in_avg = false) (hz : s.after_zero = false)
    (no : ℕ) (re im : ℤ) :
    V2Inv F ts
      { s with fftNoList := s.fftNoList ++ [no]
               fftIndexList := s.fftIndexList ++ [s.FFT_index]
               fixedFftTimeList := s.fixedFftTimeList ++ [s.fixed_fft_time]
               realList := s.realList ++ [re]
               imagList := s.imagList ++ [im]
               FFT_index := s.FFT_index + 1 } := by
  have hfix := h.fixedFft hin
  refine ⟨h.lastFft, h.lastAvg, ?_, ?_, h.avgChain, ?_, ?_, ?_, ?_, ?_, h.errZero⟩
  · exact chain_le_snoc h.fftChain (fun y hy => hfix ▸ h.fftLe y hy)
  · intro x hx
    rcases List.mem_append.1 hx with hx | hx
    · exact h.fftLe x hx
    · simp only [List.mem_singleton] at hx
      subst hx
      exact le_of_eq hfix
  · exact fun x hx => h.avgLe x hx
  · exact fun _ => hfix
  · exact fun hin' => h.fixedAvg hin'
  · intro hz'
    dsimp only at hz'
    rw [hz] at hz'
    simp at hz'
  · intro hne
    exact absurd hfz hne

/-- The locked part of the loop body preserves the invariant. -/
theorem v2Locked_inv (F : ℕ) (ts : ℚ) (v : ℕ) (hts : 0 ≤ ts) (s : V2State)
    (hfz : s.first_zero = 2) (h : V2Inv F ts s) :
    V2Inv F ts (v2Locked F ts s v) := by
  have htime : v % 2 ^ 30 < 2 ^ 30 := Nat.mod_lt _ (by norm_num)
  have hA : ((s.last_avg_time : ℕ) : ℤ) < (2 ^ 30 : ℤ) := by exact_mod_cast h.lastAvg
  have hF2 : ((s.last_fft_time : ℕ) : ℤ) < (2 ^ 30 : ℤ) := by exact_mod_cast h.lastFft
  have hoffA := wrap_tick_mono_even (2 ^ 30 : ℤ) s.last_avg_time (v % 2 ^ 30)
    s.avg_time_offset hA
  have hoffF := wrap_tick_mono (2 ^ 30 : ℤ) s.last_fft_time (v % 2 ^ 30)
    s.fft_time_offset hF2
  unfold v2Locked
  simp only []
  split_ifs with h1 h2 h3 h4 h5 h6 h7 h8 h9
  -- end-of-frame zero word
  · exact h.frame_end hfz (h1.imp (fun x => x.1) (fun x => ⟨x.1, x.2.1⟩))
  -- corruption-recovery branch: unreachable, since `after_zero` always
  -- comes with a frame shape that would have absorbed this zero word
  · exact absurd ((h.zeroShape h2).imp (fun hf => ⟨hf, h3⟩)
      (fun ha => ⟨ha.1, ha.2, h3⟩)) h1
  -- average header, wrap correction
  · rw [if_pos h6] at hoffA
    exact v2_avg_header_inv (v % 2 ^ 30) (s.avg_time_offset + 2 ^ 30) htime
      hfz h.lastFft h.fftChain (fun x hx => h.fftLe x hx) h.avgChain
      (fun x hx => tick_scale_le (h.avgLe x hx) hoffA hts) h.errZero
  -- average header, no wrap
  · rw [if_neg h6] at hoffA
    exact v2_avg_header_inv (v % 2 ^ 30) s.avg_time_offset htime
      hfz h.lastFft h.fftChain (fun x hx => h.fftLe x hx) h.avgChain
      (fun x hx => tick_scale_le (h.avgLe x hx) hoffA hts) h.errZero
  -- FFT header, wrap correction
  · rw [if_pos h7] at hoffF
    exact v2_fft_header_inv (v % 2 ^ 30) (s.fft_time_offset + 2 ^ 30) htime
      hfz h.lastAvg h.fftChain
      (fun x hx => tick_scale_le (h.fftLe x hx) hoffF hts)
      h.avgChain (fun x hx => h.avgLe x hx) h.errZero
  -- FFT header, no wrap
  · rw [if_neg h7] at hoffF
    exact v2_fft_header_inv (v % 2 ^ 30) s.fft_time_offset htime
      hfz h.lastAvg h.fftChain
      (fun x hx => tick_scale_le (h.fftLe x hx) hoffF hts)
      h.avgChain (fun x hx => h.avgLe x hx) h.errZero
  -- index-resync word
  · exact h.set_index hfz (v % 2 ^ 10) false s.after_hdr rfl
  -- average payload
  · exact h.avg_emit hfz h8 (by simpa using h2) (v % 2 ^ 10)
  -- first payload word after an FFT header carries the bin index
  · exact h.set_index hfz (v % 2 ^ 10) s.after_zero false (by simpa using h2)
  -- FFT payload
  · exact h.fft_emit hfz (by simpa using h8) (by simpa using h2) (v % 2 ^ 30)
      (toInt16 (v / 65536)) (toInt16 (v % 65536))

/-- Acquiring sync: the word that locks the parser is a header and is
processed by the locked machine with freshly initialised time offsets; no
sample has been emitted yet. -/
theorem v2_lock_entry (F : ℕ) (ts : ℚ) (v : ℕ) (s : V2State)
    (hhdr : v / 2 ^ 31 % 2 = 1)
    (hempF : s.fixedFftTimeList = []) (hempA : s.fixedAvgTimeList = [])
    (hlf : s.last_fft_time < 2 ^ 30) (hla : s.last_avg_time < 2 ^ 30)
    (herr : s.errors = 0) :
    V2Inv F ts (v2Locked F ts
      { s with first_zero := 2, after_zero := true
               fft_time_offset := -(v % 2 ^ 30 : ℕ)
               avg_time_offset := -(v % 2 ^ 30 : ℕ) } v) := by
  have hv0 : v ≠ 0 := by
    intro h0
    rw [h0] at hhdr
    simp at hhdr
  have ht : v % 2 ^ 30 < 2 ^ 30 := Nat.mod_lt _ (by norm_num)
  unfold v2Locked
  simp only []
  split_ifs with h1 h2 h3 h4
  all_goals
    first
    | exact absurd (h1.elim (fun x => x.2) (fun x => x.2.2)) hv0
    | exact absurd h3 hv0
    | exact absurd rfl h2
    | exact absurd hhdr h4
    | exact v2_avg_header_inv (v % 2 ^ 30) (-(v % 2 ^ 30 : ℕ) + 2 ^ 30 : ℤ) ht
        rfl hlf (by simp [hempF]) (by simp [hempF]) (by simp [hempA]) (by simp [hempA]) herr
    | exact v2_avg_header_inv (v % 2 ^ 30) (-(v % 2 ^ 30 : ℕ) : ℤ) ht
        rfl hlf (by simp [hempF]) (by simp [hempF]) (by simp [hempA]) (by simp [hempA]) herr
    | exact v2_fft_header_inv (v % 2 ^ 30) (-(v % 2 ^ 30 : ℕ) + 2 ^ 30 : ℤ) ht
        rfl hla (by simp [hempF]) (by simp [hempF]) (by simp [hempA]) (by simp [hempA]) herr
    | exact v2_fft_header_inv (v % 2 ^ 30) (-(v % 2 ^ 30 : ℕ) : ℤ) ht
        rfl hla (by simp [hempF]) (by simp [hempF]) (by simp [hempA]) (by simp [hempA]) herr

/-- Changing only `first_zero` (to a non-locked value) preserves the
invariant. -/
theorem V2Inv.set_first_zero {F : ℕ} {ts : ℚ} {s : V2State} (h : V2Inv F ts s)
    (hs : s.first_zero ≠ 2) (c : ℕ) :
    V2Inv F ts { s with first_zero := c } := by
  refine ⟨h.lastFft, h.lastAvg, h.fftChain, ?_, h.avgChain, ?_, ?_, ?_, ?_, ?_, h.errZero⟩
  · exact fun x hx => h.fftLe x hx
  · exact fun x hx => h.avgLe x hx
  · exact fun hin => h.fixedFft hin
  · exact fun hin => h.fixedAvg hin
  · exact fun hz => h.zeroShape hz
  · exact fun _ => h.search hs

/-- One `parsePlutoV2` loop iteration preserves the invariant. -/
theorem v2Step_inv (F : ℕ) (ts : ℚ) (v : ℕ) (hts : 0 ≤ ts) (s : V2State)
    (h : V2Inv F ts s) : V2Inv F ts (v2Step F ts s v) := by
  unfold v2Step
  simp only []
  split_ifs with h1 h2 h3 h4 h5
  · exact h.set_first_zero h1 1
  · exact h
  · exact h
  · exact h.set_first_zero h1 0
  · have hse := h.search h1
    exact v2_lock_entry F ts v s (not_not.mp h5) hse.1 hse.2.1 h.lastFft h.lastAvg h.errZero
  · exact v2Locked_inv F ts v hts s (not_not.mp h1) h

theorem initV2_inv (F : ℕ) (ts : ℚ) : V2Inv F ts initV2 := by
  refine ⟨by norm_num [initV2], by norm_num [initV2], ?_, ?_, ?_, ?_, ?_, ?_, ?_, ?_, ?_⟩ <;>
    simp [initV2, fftBound]

theorem foldl_v2_inv (F : ℕ) (ts : ℚ) (hts : 0 ≤ ts) :
    ∀ (ws : List ℕ) (s : V2State), V2Inv F ts s →
      V2Inv F ts (ws.foldl (v2Step F ts) s)
  | [], _, h => h
  | v :: rest, s, h => foldl_v2_inv F ts hts rest _ (v2Step_inv F ts v hts s h)

/-- The `parsePlutoV2` invariant holds for every input byte stream. -/
theorem parsePlutoV2_inv (bytes : List ℕ) (L : ℕ) :
    V2Inv (2 ^ L) (tsScale L) (parsePlutoV2 bytes L) :=
  foldl_v2_inv _ _ (le_of_lt (tsScale_pos L)) _ _ (initV2_inv _ _)

/-! ## Claim theorems for the decoders -/

/-- C3: for every input byte stream and for both decoders (V1 and V2), the
sequence of reconstructed `time_ns` values of the emitted FFT samples is
non-decreasing, and the sequence of reconstructed `time_ns` values of the
emitted average samples is non-decreasing (the two sections considered
separately). -/
theorem c3_time_ns_monotone :
    (∀ (bytes : List ℕ) (L : ℕ),
      List.Chain' (· ≤ ·) (parsePlutoV1 bytes L).fixedFftTimeList ∧
      List.Chain' (· ≤ ·) (parsePlutoV1 bytes L).fixedAvgTimeList) ∧
    (∀ (bytes : List ℕ) (L : ℕ),
      List.Chain' (· ≤ ·) (parsePlutoV2 bytes L).fixedFftTimeList ∧
      List.Chain' (· ≤ ·) (parsePlutoV2 bytes L).fixedAvgTimeList) :=
  ⟨fun bytes L => ⟨(parsePlutoV1_inv bytes L).fftChain, (parsePlutoV1_inv bytes L).avgChain⟩,
   fun bytes L => ⟨(parsePlutoV2_inv bytes L).fftChain, (parsePlutoV2_inv bytes L).avgChain⟩⟩

/-- C2 (counterexample): decoding `0A 00 05 00 01 00 00 00` with NFFT = 1024
does not produce the claimed `time_ns = 1 · 16.2760417 · 512`: the decoder
initialises both time offsets to `-time` on the very first record, so the
first sample's reconstructed time is `0`. -/
theorem c2_counterexample :
    (parsePlutoV1 c2bytes 10).fixedFftTimeList ≠ [(162760417 : ℚ) / 10000000 * 512] := by
  norm_num [parsePlutoV1, c2bytes, v1Records, v1Step, initV1, word32, toInt16]

/-- C2 (amended): decoding the single V1 record `0A 00 05 00 01 00 00 00`
with NFFT = 1024 emits exactly one sample, an FFT sample with `bin = 0`,
`re = 5`, `im = 10` and reconstructed `time_ns = 0` (the first record zeroes
the time offsets). -/
theorem c2_amended :
    (parsePlutoV1 c2bytes 10).fftIndexList = [0] ∧
    (parsePlutoV1 c2bytes 10).realList = [5] ∧
    (parsePlutoV1 c2bytes 10).imagList = [10] ∧
    (parsePlutoV1 c2bytes 10).fixedFftTimeList = [0] ∧
    (parsePlutoV1 c2bytes 10).fftNoList = [1] ∧
    (parsePlutoV1 c2bytes 10).magIdxList = [] ∧
    (parsePlutoV1 c2bytes 10).avgMagnitudeList = [] := by
  norm_num [parsePlutoV1, c2bytes, v1Records, v1Step, initV1, word32, toInt16]

/-- C1: inside a V2 average section the decoder appends `index`, i.e.
`value & 0x3FF`, to `avgMagnitudeList` — not the full 32-bit word.  The
payload word `1024` therefore yields an emitted magnitude of `0 ≠ 1024`,
contradicting the documented behaviour (`:output: avgMagnitudeList ...
Magnitude average value per bin`; the repository's standalone V2 parser
prints the full `value` at this point). -/
theorem c1_avg_magnitude_masked :
    (parsePlutoV2 c1bytes 10).magIdxList = [0] ∧
    (parsePlutoV2 c1bytes 10).avgMagnitudeList = [0] ∧
    (0 : ℕ) ≠ 1024 := by
  decide

/-- C6 (counterexample): with NFFT = 1024, after an FFT header and the index
word `1023`, two consecutive data words make the decoder emit bins `1023`
and `1024`: an emitted bin index reaches NFFT, and the decoder stays locked
(`first_zero = 2`) rather than returning to the search state. -/
theorem c6_counterexample :
    (parsePlutoV2 c6bytes 10).fftIndexList = [1023, 1024] ∧
    ¬(∀ b ∈ (parsePlutoV2 c6bytes 10).fftIndexList, b < 1024) ∧
    (parsePlutoV2 c6bytes 10).first_zero = 2 ∧
    (parsePlutoV2 c6bytes 10).errors = 0 := by
  decide

/-- C6 (amended): a wire index word always loads `FFT_index` with
`value & 0x3FF < 1024` and leaves the decoder locked, and the
corruption-recovery branch (the only path back to the Searching state) never
executes on any input; the decoder has no `index ≥ NFFT` check, and emitted
bin indices may exceed `NFFT - 1` by successive increments
(`c6_counterexample`). -/
theorem c6_amended :
    (∀ (F : ℕ) (ts : ℚ) (s : V2State) (v : ℕ),
      s.first_zero = 2 → s.after_zero = true → v ≠ 0 → v < 2 ^ 31 →
        (v2Step F ts s v).FFT_index = v % 2 ^ 10 ∧ v % 2 ^ 10 < 1024 ∧
          (v2Step F ts s v).first_zero = 2) ∧
    (∀ (bytes : List ℕ) (L : ℕ), (parsePlutoV2 bytes L).errors = 0) := by
  constructor
  · intro F ts s v hfz hz hv hlt
    have h31 : v / 2 ^ 31 % 2 = 0 := by
      rw [Nat.div_eq_of_lt hlt]
    have hC : ¬((s.in_FFT = true ∧ v = 0) ∨
        (s.in_avg = true ∧ s.FFT_index = F ∧ v = 0)) := by
      rintro (⟨_, h⟩ | ⟨_, _, h⟩) <;> exact hv h
    refine ⟨?_, Nat.mod_lt _ (by norm_num), ?_⟩ <;>
      · unfold v2Step v2Locked
        simp only []
        rw [if_neg (by simp [hfz]), if_neg hC, if_pos hz, if_neg hv,
          if_neg (by rw [h31]; norm_num)]
        try simp [hfz]
  · intro bytes L
    exact (parsePlutoV2_inv bytes L).errZero

/-- Witness for `c6_amended`: after `c6wBytes` the decoder is locked with
`after_zero = true`, and feeding the word `5` sets `FFT_index = 5 % 2 ^ 10`. -/
theorem c6_amended_witness :
    (v2Step (2 ^ 10) (tsScale 10) (parsePlutoV2 c6wBytes 10) 5).FFT_index = 5 % 2 ^ 10 ∧
    5 % 2 ^ 10 < 1024 ∧
    (v2Step (2 ^ 10) (tsScale 10) (parsePlutoV2 c6wBytes 10) 5).first_zero = 2 :=
  c6_amended.1 (2 ^ 10) (tsScale 10) (parsePlutoV2 c6wBytes 10) 5
    (by decide) (by decide) (by decide) (by decide)

/-! ## Claim theorems for the config readback -/

/-- C8: `getThresholdBinShiftFromFile` emits the possible-numeric-overflow
warning if and only if the chosen integer `binShift` — the value after the
`astype(int)` cast, wrapped or not — is strictly less than
`⌈ConservativeShift⌉` (the comparison in the source is against the float
`ConservativeShift` itself, which for an integer left-hand side is
equivalent). -/
theorem c8_overflow_warning_iff (C : ℚ) (S : ℤ) (conserve : Bool) :
    (getThresholdBinShiftFromFile C S conserve).2 = true ↔
      (getThresholdBinShiftFromFile C S conserve).1 < ⌈C⌉ := by
  unfold getThresholdBinShiftFromFile
  simp [Int.lt_ceil]

/-- C10 (counterexample): for `ConservativeShift = 2^63` the ceiling `2^63`
lies outside int64 range, so the `astype(int)` cast wraps it (x86: to
`INT64_MIN`) and the test `binShift < ConservativeShift` holds: the
possible-numeric-overflow warning fires even with `conserveShift = True`. -/
theorem c10_counterexample :
    (getThresholdBinShiftFromFile (2 ^ 63) 5 true).2 = true := by
  have hceil : ⌈((2 : ℚ) ^ 63)⌉ = 2 ^ 63 := by
    rw [show ((2 : ℚ) ^ 63) = (((2 ^ 63 : ℤ)) : ℚ) by push_cast; ring]
    exact Int.ceil_intCast _
  unfold getThresholdBinShiftFromFile astypeInt64
  simp only [if_true, hceil]
  rw [if_neg (by norm_num)]
  simp only [decide_eq_true_eq]
  push_cast
  norm_num

/-- C10 (amended): with `conserveShift = True` the chosen
`binShift = astype(int)(⌈ConservativeShift⌉)` equals `⌈ConservativeShift⌉`,
which is `≥ ConservativeShift`, whenever the ceiling fits in int64 — as it
does for every calibration-produced configuration — so the numeric-overflow
warning is not emitted (`thresholdOffsetdB` does not enter the test); outside
int64 range the cast wraps and the warning fires (`c10_counterexample`). -/
theorem c10_conserve_no_overflow_warning (C : ℚ) (S : ℤ)
    (hlo : -(2 ^ 63) ≤ ⌈C⌉) (hhi : ⌈C⌉ < 2 ^ 63) :
    (getThresholdBinShiftFromFile C S true).2 = false := by
  unfold getThresholdBinShiftFromFile astypeInt64
  simp only [if_true]
  rw [if_pos ⟨hlo, hhi⟩]
  simp [not_lt.2 (Int.le_ceil C)]

/-- Witness for `c10_conserve_no_overflow_warning` at
`ConservativeShift = 3`. -/
theorem c10_conserve_no_overflow_warning_witness :
    (getThresholdBinShiftFromFile 3 5 true).2 = false := by
  have hceil : ⌈((3 : ℚ))⌉ = 3 := by
    rw [show ((3 : ℚ)) = (((3 : ℤ)) : ℚ) by norm_num]
    exact Int.ceil_intCast _
  exact c10_conserve_no_overflow_warning 3 5 (by rw [hceil]; norm_num)
    (by rw [hceil]; norm_num)

/-! ## Claim theorems for the shift-selection loop -/

/-- If a shift in the (descending) remaining shift list passes the check,
every shift whose capture the loop opens is at least that shift. -/
theorem shiftLoop_mem_ge (captures : ℕ → List ℕ) (nfft s : ℕ)
    (hacc : acceptShift (captures s) nfft = true) :
    ∀ (l : List ℕ), List.Sorted (· > ·) l → s ∈ l →
      ∀ (cur : ℕ), ∀ t ∈ (shiftLoop captures nfft l cur).2, s ≤ t := by
  intro l
  induction l with
  | nil => intro _ hmem; cases hmem
  | cons a rest ih =>
    intro hsort hmem cur t ht
    by_cases ha : acceptShift (captures a) nfft = true
    · rw [show shiftLoop captures nfft (a :: rest) cur = (a, [a]) by
        simp [shiftLoop, ha]] at ht
      simp only [List.mem_singleton] at ht
      subst ht
      rcases List.mem_cons.1 hmem with rfl | hmem'
      · exact le_refl _
      · exact le_of_lt (List.rel_of_sorted_cons hsort _ hmem')
    · rw [show shiftLoop captures nfft (a :: rest) cur =
          ((shiftLoop captures nfft rest a).1, a :: (shiftLoop captures nfft rest a).2) by
        simp [shiftLoop, ha]] at ht
      rcases List.mem_cons.1 ht with rfl | ht'
      · rcases List.mem_cons.1 hmem with rfl | hmem'
        · exact absurd hacc ha
        · exact le_of_lt (List.rel_of_sorted_cons hsort _ hmem')
      · rcases List.mem_cons.1 hmem with rfl | hmem'
        · exact absurd hacc ha
        · exact ih hsort.of_cons hmem' a t ht'

/-- If `s` passes and every larger listed shift fails, the loop returns `s`. -/
theorem shiftLoop_first (captures : ℕ → List ℕ) (nfft s : ℕ)
    (hacc : acceptShift (captures s) nfft = true) :
    ∀ (l : List ℕ), List.Sorted (· > ·) l → s ∈ l →
      (∀ t ∈ l, s < t → acceptShift (captures t) nfft = false) →
      ∀ (cur : ℕ), (shiftLoop captures nfft l cur).1 = s := by
  intro l
  induction l with
  | nil => intro _ hmem; cases hmem
  | cons a rest ih =>
    intro hsort hmem hothers cur
    by_cases ha : acceptShift (captures a) nfft = true
    · rw [show shiftLoop captures nfft (a :: rest) cur = (a, [a]) by
        simp [shiftLoop, ha]]
      rcases List.mem_cons.1 hmem with rfl | hmem'
      · rfl
      · exact absurd ha (by
          rw [hothers a (List.mem_cons_self a rest)
            (List.rel_of_sorted_cons hsort _ hmem')]
          simp)
    · rw [show shiftLoop captures nfft (a :: rest) cur =
          ((shiftLoop captures nfft rest a).1, a :: (shiftLoop captures nfft rest a).2) by
        simp [shiftLoop, ha]]
      rcases List.mem_cons.1 hmem with rfl | hmem'
      · exact absurd hacc ha
      · exact ih hsort.of_cons hmem'
          (fun t htl hst => hothers t (List.mem_cons_of_mem a htl) hst) a

/-- If every listed shift fails, the loop walks the whole list and returns the
last shift tried. -/
theorem shiftLoop_all_fail (captures : ℕ → List ℕ) (nfft : ℕ) :
    ∀ (l : List ℕ) (cur : ℕ),
      (∀ t ∈ l, acceptShift (captures t) nfft = false) →
      shiftLoop captures nfft l cur = (l.getLastD cur, l) := by
  intro l
  induction l with
  | nil => intro cur _; rfl
  | cons a rest ih =>
    intro cur hall
    have ha : ¬acceptShift (captures a) nfft = true := by
      rw [hall a (List.mem_cons_self a rest)]
      simp
    rw [show shiftLoop captures nfft (a :: rest) cur =
        ((shiftLoop captures nfft rest a).1, a :: (shiftLoop captures nfft rest a).2) by
      simp [shiftLoop, ha]]
    rw [ih a (fun t htl => hall t (List.mem_cons_of_mem a htl))]
    simp only [List.getLastD_cons]

/-- C4: the fitter examines shifts in the order 7, 6, ..., 0; if the capture
at shift `s` passes the acceptance check it never opens the capture file of
any smaller shift, the returned shift is `s` when `s` is the first passing
shift, and if no shift passes, the last shift tried (0) is returned after
opening all eight files. -/
theorem c4_shift_selection :
    (∀ (captures : ℕ → List ℕ) (nfft s : ℕ), s < 8 →
        acceptShift (captures s) nfft = true →
        ∀ t ∈ (computeShiftThresholdsPluto captures nfft).2, s ≤ t) ∧
    (∀ (captures : ℕ → List ℕ) (nfft s : ℕ), s < 8 →
        acceptShift (captures s) nfft = true →
        (∀ t, t < 8 → s < t → acceptShift (captures t) nfft = false) →
        (computeShiftThresholdsPluto captures nfft).1 = s) ∧
    (∀ (captures : ℕ → List ℕ) (nfft : ℕ),
        (∀ t, t < 8 → acceptShift (captures t) nfft = false) →
        computeShiftThresholdsPluto captures nfft = (0, [7, 6, 5, 4, 3, 2, 1, 0])) := by
  have hsort : List.Sorted (· > ·) [7, 6, 5, 4, 3, 2, 1, 0] := by decide
  have hmem : ∀ s : ℕ, s < 8 → s ∈ [7, 6, 5, 4, 3, 2, 1, 0] := by decide
  have hlt : ∀ t ∈ [7, 6, 5, 4, 3, 2, 1, 0], t < 8 := by decide
  refine ⟨?_, ?_, ?_⟩
  · intro captures nfft s hs hacc t ht
    exact shiftLoop_mem_ge captures nfft s hacc _ hsort (hmem s hs) 0 t ht
  · intro captures nfft s hs hacc hothers
    exact shiftLoop_first captures nfft s hacc _ hsort (hmem s hs)
      (fun t htl hst => hothers t (hlt t htl) hst) 0
  · intro captures nfft hall
    unfold computeShiftThresholdsPluto
    rw [shiftLoop_all_fail captures nfft _ 0 (fun t htl => hall t (hlt t htl))]
    decide

/-- Witness for `c4_shift_selection`: with captures that fail for shifts 7
and 6 and pass from shift 5 down, the loop returns shift 5. -/
theorem c4_shift_selection_witness :
    acceptShift (witnessCaptures 5) 4 = true ∧
    (computeShiftThresholdsPluto witnessCaptures 4).1 = 5 := by
  have hmed9 : medianVec [9, 9, 9, 9] 4 = [some 8, some 8, some 8, some 8] := by
    norm_num [medianVec, colMedian, median, aggregate, chunkRows, List.cons_ne_nil,
      List.range_succ, List.insertionSort, List.orderedInsert, List.getD]
  have hmed1 : medianVec [1, 1, 1, 1, 2, 2, 2, 2] 4 =
      [some (1 / 2), some (1 / 2), some (1 / 2), some (1 / 2)] := by
    norm_num [medianVec, colMedian, median, aggregate, chunkRows, List.cons_ne_nil,
      List.range_succ, List.insertionSort, List.orderedInsert, List.getD]
  have hpass : acceptShift (witnessCaptures 5) 4 = true := by
    rw [show witnessCaptures 5 = [9, 9, 9, 9] by norm_num [witnessCaptures]]
    rw [acceptShift, smoothVec, hmed9]
    simp only [boxSmooth, fftshift, List.length_cons, List.length_nil, List.range_succ,
      List.range_zero, List.map_nil, List.map_append, List.map_cons, List.nil_append,
      List.singleton_append, List.cons_append, List.append_nil, List.take_succ_cons,
      List.take_nil, List.take_zero, List.drop_succ_cons, List.drop_nil, List.drop_zero]
    norm_num [getPad, List.getD, naddQ, log10Neg]
  have hfailc : acceptShift [1, 1, 1, 1, 2, 2, 2, 2] 4 = false := by
    rw [acceptShift, smoothVec, hmed1]
    simp only [boxSmooth, fftshift, List.length_cons, List.length_nil, List.range_succ,
      List.range_zero, List.map_nil, List.map_append, List.map_cons, List.nil_append,
      List.singleton_append, List.cons_append, List.append_nil, List.take_succ_cons,
      List.take_nil, List.take_zero, List.drop_succ_cons, List.drop_nil, List.drop_zero]
    norm_num [getPad, List.getD, naddQ, log10Neg]
  have hfail : ∀ t, t < 8 → 5 < t → acceptShift (witnessCaptures t) 4 = false := by
    intro t ht h5
    rw [show witnessCaptures t = [1, 1, 1, 1, 2, 2, 2, 2] by
      unfold witnessCaptures
      rw [if_pos (by omega)]]
    exact hfailc
  exact ⟨hpass, c4_shift_selection.2.1 witnessCaptures 4 5 (by norm_num) hpass hfail⟩

/-- IEEE classification of `10*log10 x < 0` (see `log10Neg`): true exactly
for a real (non-NaN) value in `[0, 1)`. -/
theorem log10Neg_iff (x : Option ℚ) :
    log10Neg x = true ↔ ∃ q : ℚ, x = some q ∧ 0 ≤ q ∧ q < 1 := by
  cases x with
  | none => simp [log10Neg]
  | some q =>
    have hiff : (∃ q' : ℚ, some q = some q' ∧ 0 ≤ q' ∧ q' < 1) ↔ 0 ≤ q ∧ q < 1 := by
      constructor
      · rintro ⟨q', hq, hb⟩
        injection hq with hq
        subst hq
        exact hb
      · intro hb
        exact ⟨q, rfl, hb⟩
    rw [hiff]
    simp only [log10Neg]
    split_ifs with h1 h2
    · simp only [Bool.false_eq_true, false_iff]
      exact fun hc => absurd h1 (not_lt.2 hc.1)
    · subst h2
      norm_num
    · simp only [decide_eq_true_eq]
      exact ⟨fun h => ⟨not_lt.1 h1, h⟩, fun h => h.2⟩

/-- C5 (counterexample): for the all-zero capture every aggregated entry is
`-1`, every smoothed value is negative (bin 0 holds the real value
`-1/2 ≤ 0`), yet the acceptance check `np.sum(dB < 0) == 0` passes —
`10*log10` of a negative float is NaN and `NaN < 0` is false — contradicting
the claim that any bin `≤ 0` fails the check.  (Whether the loop then
actually accepts the shift additionally hinges on the preceding `np.polyfit`
call, which receives the NaN-laden dB vector and may raise before the check
is reached; the refuted sentence is the one about the check itself.) -/
theorem c5_counterexample :
    (smoothVec zeroCapture 8).getD 0 (some 0) = some (-(1 / 2)) ∧
    acceptShift zeroCapture 8 = true := by
  have hmed : medianVec zeroCapture 8 = [some (-1), some (-1), some (-1), some (-1),
      some (-1), some (-1), some (-1), some (-1)] := by
    norm_num [medianVec, zeroCapture, colMedian, median, aggregate, chunkRows,
      List.cons_ne_nil, List.range_succ, List.insertionSort, List.orderedInsert,
      List.getD]
  constructor
  · rw [smoothVec, hmed]
    simp only [boxSmooth, fftshift, List.length_cons, List.length_nil, List.range_succ,
      List.range_zero, List.map_nil, List.map_append, List.map_cons, List.nil_append,
      List.singleton_append, List.cons_append, List.append_nil, List.take_succ_cons,
      List.take_nil, List.take_zero, List.drop_succ_cons, List.drop_nil, List.drop_zero]
    norm_num [getPad, List.getD, naddQ]
  · rw [acceptShift, smoothVec, hmed]
    simp only [boxSmooth, fftshift, List.length_cons, List.length_nil, List.range_succ,
      List.range_zero, List.map_nil, List.map_append, List.map_cons, List.nil_append,
      List.singleton_append, List.cons_append, List.append_nil, List.take_succ_cons,
      List.take_nil, List.take_zero, List.drop_succ_cons, List.drop_nil, List.drop_zero]
    norm_num [getPad, List.getD, naddQ, log10Neg]

/-- C5 (amended): the acceptance check fails exactly when some smoothed bin
is a real (non-NaN) value in `[0, 1)`: a bin equal to `0` gives `-inf` dB and
fails the check (and a positive bin below `1` gives negative dB), while a bin
with smoothed value `< 0` — or a NaN bin, from the median of a capture
shorter than one window — gives NaN dB, which does *not* fail the check. -/
theorem c5_amended (mags : List ℕ) (nfft : ℕ) :
    acceptShift mags nfft = false ↔
      ∃ q : ℚ, some q ∈ smoothVec mags nfft ∧ 0 ≤ q ∧ q < 1 := by
  unfold acceptShift
  rw [beq_eq_false_iff_ne, Ne, List.countP_eq_zero]
  push_neg
  constructor
  · rintro ⟨x, hx, hpx⟩
    obtain ⟨q, rfl, hq⟩ := (log10Neg_iff x).1 (by simpa using hpx)
    exact ⟨q, hx, hq⟩
  · rintro ⟨q, hq, h0, h1⟩
    exact ⟨some q, hq, by
      simpa using (log10Neg_iff (some q)).2 ⟨q, rfl, h0, h1⟩⟩

/-! ## Claim theorems for the average-matrix aggregation -/

theorem chunkRows_length (nfft : ℕ) :
    ∀ (W : ℕ) (l : List ℕ), (chunkRows nfft W l).length = W
  | 0, _ => rfl
  | W + 1, l => by
    simp [chunkRows, chunkRows_length nfft W]

theorem chunkRows_get? (nfft : ℕ) :
    ∀ (W : ℕ) (l : List ℕ) (w : ℕ), w < W →
      (chunkRows nfft W l).get? w = some ((l.drop (w * nfft)).take nfft) := by
  intro W
  induction W with
  | zero => intro l w hw; cases hw
  | succ W ih =>
    intro l w hw
    cases w with
    | zero => simp [chunkRows]
    | succ w =>
      have hrec := ih (l.drop nfft) w (Nat.lt_of_succ_lt_succ hw)
      simp only [chunkRows, List.get?_cons_succ, hrec, List.drop_drop]
      congr 3
      ring

/-- C7 (counterexample): with a single magnitude and `nfft = 4` (so `W = 0`),
the aggregation step returns the empty `(0, nfft)` matrix instead of
signalling an error; `aggregateSpec` is the spec's wording, which errors. -/
theorem c7_counterexample :
    aggregateSpec [5] 4 = none ∧ aggregate [5] 4 = [] := by
  constructor
  · rfl
  · rfl

/-- C7 (amended): for `W·nfft + r` input magnitudes with `r < nfft`, the
aggregation step returns a `(W, nfft)` matrix whose entry `(w, i)` is the
`(w·nfft + i)`-th input magnitude minus 1 — including `W = 0`, where the
result is the empty matrix and no error is signalled (numpy's
`reshape((-1, nfft))` of an empty array yields shape `(0, nfft)`). -/
theorem c7_amended (mags : List ℕ) (nfft W r : ℕ) (h1 : 0 < nfft)
    (h2 : mags.length = W * nfft + r) (h3 : r < nfft) :
    (aggregate mags nfft).length = W ∧
    (∀ row ∈ aggregate mags nfft, row.length = nfft) ∧
    (∀ w i, w < W → i < nfft →
      ((aggregate mags nfft).get? w).bind (fun row => row.get? i) =
        (mags.get? (w * nfft + i)).map (fun m : ℕ => (m : ℤ) - 1)) := by
  have hdiv : mags.length / nfft = W := by
    rw [h2, Nat.mul_comm, Nat.mul_add_div h1, Nat.div_eq_of_lt h3, Nat.add_zero]
  have htlen : (mags.take (mags.length / nfft * nfft)).length = W * nfft := by
    rw [hdiv, List.length_take]
    omega
  have htdiv : (mags.take (mags.length / nfft * nfft)).length / nfft = W := by
    rw [htlen, Nat.mul_div_cancel _ h1]
  refine ⟨?_, ?_, ?_⟩
  · unfold aggregate
    simp only [htdiv, List.length_map, chunkRows_length]
  · intro row hrow
    unfold aggregate at hrow
    simp only [htdiv, List.mem_map] at hrow
    obtain ⟨row0, hrow0, rfl⟩ := hrow
    rw [List.mem_iff_get?] at hrow0
    obtain ⟨w, hw⟩ := hrow0
    have hwW : w < W := by
      have hlt := List.get?_eq_some.1 hw
      obtain ⟨hlt, _⟩ := hlt
      rwa [chunkRows_length] at hlt
    rw [chunkRows_get? nfft W _ w hwW] at hw
    have hrow0eq : row0 = ((mags.take (mags.length / nfft * nfft)).drop (w * nfft)).take nfft := by
      injection hw with h
      exact h.symm
    subst hrow0eq
    rw [List.length_map, List.length_take, List.length_drop, htlen]
    have hmul : w * nfft + nfft ≤ W * nfft := by
      have := Nat.mul_le_mul_right nfft (Nat.succ_le_of_lt hwW)
      rwa [Nat.succ_mul] at this
    omega
  · intro w i hwW hi
    unfold aggregate
    simp only [htdiv, List.get?_map, chunkRows_get? nfft W _ w hwW]
    dsimp only [Option.map, Option.bind]
    rw [List.get?_map, List.get?_take hi, List.get?_drop,
      List.get?_take (show w * nfft + i < mags.length / nfft * nfft by
        rw [hdiv]
        have := Nat.mul_le_mul_right nfft (Nat.succ_le_of_lt hwW)
        rw [Nat.succ_mul] at this
        omega)]
    cases mags.get? (w * nfft + i) <;> rfl

/-- Witness for `c7_amended`: five magnitudes with `nfft = 2` give two
windows. -/
theorem c7_amended_witness : (aggregate [3, 4, 5, 6, 7] 2).length = 2 :=
  (c7_amended [3, 4, 5, 6, 7] 2 2 1 (by decide) (by decide) (by decide)).1

/-! ## Claim theorems for `clipCheck` -/

theorem logb_920_ub : Real.logb 10 (20 / 9) < 7 / 20 := by
  rw [Real.logb, div_lt_iff (Real.log_pos (by norm_num))]
  have key : ((20 : ℝ) / 9) ^ (20 : ℕ) < (10 : ℝ) ^ (7 : ℕ) := by norm_num
  have hlog := Real.log_lt_log (by positivity) key
  rw [Real.log_pow, Real.log_pow] at hlog
  push_cast at hlog
  linarith

theorem logb_920_lb : (13 : ℝ) / 40 ≤ Real.logb 10 (20 / 9) := by
  rw [Real.logb, le_div_iff (Real.log_pos (by norm_num))]
  have key : (10 : ℝ) ^ (13 : ℕ) ≤ ((20 : ℝ) / 9) ^ (40 : ℕ) := by norm_num
  have hlog := Real.log_le_log (by positivity) key
  rw [Real.log_pow, Real.log_pow] at hlog
  push_cast at hlog
  linarith

theorem dB900_bounds :
    (13 / 2 : ℝ) ≤ 20 * Real.logb 10 (2000 / 900) ∧
    20 * Real.logb 10 (2000 / 900) < 7 := by
  have h : (2000 : ℝ) / 900 = 20 / 9 := by norm_num
  rw [h]
  constructor
  · linarith [logb_920_lb]
  · linarith [logb_920_ub]

theorem floor_intCast_div_two (r : ℤ) : ⌊(r : ℝ) / 2⌋ = r / 2 := by
  have h1 : (r : ℝ) = 2 * ((r / 2 : ℤ) : ℝ) + ((r % 2 : ℤ) : ℝ) := by
    exact_mod_cast (Int.ediv_add_emod r 2).symm
  have h2 : (0 : ℤ) ≤ r % 2 := Int.emod_nonneg r (by norm_num)
  have h3 : r % 2 < 2 := Int.emod_lt_of_pos r (by norm_num)
  have h2' : (0 : ℝ) ≤ ((r % 2 : ℤ) : ℝ) := by exact_mod_cast h2
  have h3' : ((r % 2 : ℤ) : ℝ) < 2 := by exact_mod_cast h3
  rw [Int.floor_eq_iff]
  constructor
  · linarith
  · linarith


theorem pyInt_of_nonneg {x : ℝ} (h : 0 ≤ x) : pyInt x = ⌊x⌋ := by
  unfold pyInt
  rw [if_pos h]

/-- The clipping branch of `clipCheck`. -/
theorem clipCheck_clip (samples : List (ℤ × ℤ)) (rxgain : ℤ)
    (hne : samples ≠ [])
    (h : 2000 < absMaxList (samples.map Prod.snd) ∨
      2000 < absMaxList (samples.map Prod.fst)) :
    clipCheck samples rxgain = some (pyInt ((rxgain : ℝ) / 2)) := by
  unfold clipCheck
  simp only []
  rw [if_neg hne, if_pos h]

/-- The small-headroom branch of `clipCheck`. -/
theorem clipCheck_small (samples : List (ℤ × ℤ)) (rxgain : ℤ)
    (hne : samples ≠ [])
    (h : ¬(2000 < absMaxList (samples.map Prod.snd) ∨
      2000 < absMaxList (samples.map Prod.fst)))
    (hmax : max (absMaxList (samples.map Prod.snd)) (absMaxList (samples.map Prod.fst)) ≠ 0)
    (hdb : 20 * Real.logb 10 (2000 /
      ((max (absMaxList (samples.map Prod.snd)) (absMaxList (samples.map Prod.fst)) : ℤ) : ℝ)) < 2) :
    clipCheck samples rxgain = some rxgain := by
  unfold clipCheck
  simp only []
  rw [if_neg hne, if_neg h, if_neg hmax, if_pos hdb]

/-- The headroom branch of `clipCheck`. -/
theorem clipCheck_big (samples : List (ℤ × ℤ)) (rxgain : ℤ)
    (hne : samples ≠ [])
    (h : ¬(2000 < absMaxList (samples.map Prod.snd) ∨
      2000 < absMaxList (samples.map Prod.fst)))
    (hmax : max (absMaxList (samples.map Prod.snd)) (absMaxList (samples.map Prod.fst)) ≠ 0)
    (hdb : ¬(20 * Real.logb 10 (2000 /
      ((max (absMaxList (samples.map Prod.snd)) (absMaxList (samples.map Prod.fst)) : ℤ) : ℝ)) < 2)) :
    clipCheck samples rxgain = some (pyInt ((rxgain : ℝ) + 20 * Real.logb 10 (2000 /
      ((max (absMaxList (samples.map Prod.snd)) (absMaxList (samples.map Prod.fst)) : ℤ) : ℝ)))) := by
  unfold clipCheck
  simp only []
  rw [if_neg hne, if_neg h, if_neg hmax, if_neg hdb]

/-- C9 (amended): with a non-empty list of decoded samples and a
non-negative `rxgain`, `clipCheck` returns `rxgain / 2` rounded toward zero
when a maximum exceeds 2000; otherwise, with `max` the larger of the two
maxima and non-zero, it returns `rxgain` when `20·log10(2000/max) < 2` and
`rxgain + int(20·log10(2000/max))` — Python `int()` truncation, i.e. the
floor of the non-negative dB value, not rounding to nearest — otherwise.
(Empty samples make `np.max` raise, and all-zero samples make the final
`int(...)` raise on `inf`: both are `none` in the model.) -/
theorem c9_amended (samples : List (ℤ × ℤ)) (rxgain : ℤ) (h0 : 0 ≤ rxgain)
    (hne : samples ≠ []) :
    (2000 < absMaxList (samples.map Prod.snd) ∨
        2000 < absMaxList (samples.map Prod.fst) →
      clipCheck samples rxgain = some (rxgain / 2)) ∧
    (¬(2000 < absMaxList (samples.map Prod.snd) ∨
        2000 < absMaxList (samples.map Prod.fst)) →
      max (absMaxList (samples.map Prod.snd)) (absMaxList (samples.map Prod.fst)) ≠ 0 →
      20 * Real.logb 10 (2000 /
        ((max (absMaxList (samples.map Prod.snd)) (absMaxList (samples.map Prod.fst)) : ℤ) : ℝ)) < 2 →
      clipCheck samples rxgain = some rxgain) ∧
    (¬(2000 < absMaxList (samples.map Prod.snd) ∨
        2000 < absMaxList (samples.map Prod.fst)) →
      max (absMaxList (samples.map Prod.snd)) (absMaxList (samples.map Prod.fst)) ≠ 0 →
      ¬(20 * Real.logb 10 (2000 /
        ((max (absMaxList (samples.map Prod.snd)) (absMaxList (samples.map Prod.fst)) : ℤ) : ℝ)) < 2) →
      clipCheck samples rxgain = some (rxgain + ⌊20 * Real.logb 10 (2000 /
        ((max (absMaxList (samples.map Prod.snd)) (absMaxList (samples.map Prod.fst)) : ℤ) : ℝ))⌋)) := by
  refine ⟨?_, ?_, ?_⟩
  · intro h
    rw [clipCheck_clip samples rxgain hne h,
      pyInt_of_nonneg (by positivity), floor_intCast_div_two]
  · intro h hmax hdb
    exact clipCheck_small samples rxgain hne h hmax hdb
  · intro h hmax hdb
    rw [clipCheck_big samples rxgain hne h hmax hdb,
      pyInt_of_nonneg (by
        have h2 : (2 : ℝ) ≤ 20 * Real.logb 10 (2000 /
          ((max (absMaxList (samples.map Prod.snd)) (absMaxList (samples.map Prod.fst)) : ℤ) : ℝ)) :=
          not_lt.1 hdb
        have h0' : (0 : ℝ) ≤ (rxgain : ℝ) := by exact_mod_cast h0
        linarith),
      Int.floor_int_add]

/-- C9 (counterexample): for samples with maxima (900, 1) and `rxgain = 30`
the code returns `30 + int(6.93...) = 36` while the claim's formula gives
`30 + round(6.93...) = 37`; for a clipping capture with `rxgain = 31` the
code returns `int(31/2) = 15` while the claim's `rxgain/2` is `15.5`. -/
theorem c9_counterexample :
    clipCheck [(900, 1)] 30 = some 36 ∧ clipCheckClaim [(900, 1)] 30 = 37 ∧
    clipCheck [(2500, 0)] 31 = some 15 ∧ clipCheckClaim [(2500, 0)] 31 = 31 / 2 ∧
    ((36 : ℝ) ≠ clipCheckClaim [(900, 1)] 30 ∧
      (15 : ℝ) ≠ clipCheckClaim [(2500, 0)] 31) := by
  have hmax9 : (max (absMaxList ([((900 : ℤ), (1 : ℤ))].map Prod.snd))
      (absMaxList ([((900 : ℤ), (1 : ℤ))].map Prod.fst)) : ℤ) = 900 := by
    decide
  have hclip9 : ¬(2000 < absMaxList ([((900 : ℤ), (1 : ℤ))].map Prod.snd) ∨
      2000 < absMaxList ([((900 : ℤ), (1 : ℤ))].map Prod.fst)) := by
    decide
  have hcast : ((max (absMaxList ([((900 : ℤ), (1 : ℤ))].map Prod.snd))
      (absMaxList ([((900 : ℤ), (1 : ℤ))].map Prod.fst)) : ℤ) : ℝ) = 900 := by
    rw [hmax9]
    norm_num
  have hdb9 : ¬(20 * Real.logb 10 (2000 /
      ((max (absMaxList ([((900 : ℤ), (1 : ℤ))].map Prod.snd))
        (absMaxList ([((900 : ℤ), (1 : ℤ))].map Prod.fst)) : ℤ) : ℝ)) < 2) := by
    rw [hcast]
    have := dB900_bounds.1
    linarith
  have hfloor9 : ⌊20 * Real.logb 10 ((2000 : ℝ) / 900)⌋ = 6 := by
    rw [Int.floor_eq_iff]
    have h1 := dB900_bounds.1
    have h2 := dB900_bounds.2
    constructor
    · norm_num
      linarith
    · norm_num
      linarith
  have hround9 : round (20 * Real.logb 10 ((2000 : ℝ) / 900)) = 7 := by
    rw [round_eq, Int.floor_eq_iff]
    have h1 := dB900_bounds.1
    have h2 := dB900_bounds.2
    constructor
    · norm_num
      linarith
    · norm_num
      linarith
  have hclip25 : 2000 < absMaxList ([((2500 : ℤ), (0 : ℤ))].map Prod.snd) ∨
      2000 < absMaxList ([((2500 : ℤ), (0 : ℤ))].map Prod.fst) := by
    right
    decide
  have e1 : clipCheck [(900, 1)] 30 = some 36 := by
    rw [clipCheck_big _ _ (by decide) hclip9 (by decide) hdb9, pyInt_of_nonneg (by
        rw [hcast]
        have := dB900_bounds.1
        push_cast
        linarith),
      Int.floor_int_add, hcast, hfloor9]
    decide
  have e2 : clipCheckClaim [(900, 1)] 30 = 37 := by
    unfold clipCheckClaim
    simp only []
    rw [if_neg hclip9, if_neg hdb9, hcast, hround9]
    norm_num
  have e3 : clipCheck [(2500, 0)] 31 = some 15 := by
    rw [clipCheck_clip _ _ (by decide) hclip25, pyInt_of_nonneg (by positivity),
      floor_intCast_div_two]
    decide
  have e4 : clipCheckClaim [(2500, 0)] 31 = 31 / 2 := by
    unfold clipCheckClaim
    simp only []
    rw [if_pos hclip25]
    norm_num
  refine ⟨e1, e2, e3, e4, ?_, ?_⟩
  · rw [e2]
    norm_num
  · rw [e4]
    norm_num

/-- Witness for `c9_amended`: the headroom branch at samples `[(900, 1)]`
and `rxgain = 30`. -/
theorem c9_amended_witness :
    clipCheck [(900, 1)] 30 = some (30 + ⌊20 * Real.logb 10 (2000 /
      ((max (absMaxList ([((900 : ℤ), (1 : ℤ))].map Prod.snd))
        (absMaxList ([((900 : ℤ), (1 : ℤ))].map Prod.fst)) : ℤ) : ℝ))⌋) :=
  (c9_amended [(900, 1)] 30 (by norm_num) (by decide)).2.2 (by decide) (by decide)
    (by
      rw [show ((max (absMaxList ([((900 : ℤ), (1 : ℤ))].map Prod.snd))
          (absMaxList ([((900 : ℤ), (1 : ℤ))].map Prod.fst)) : ℤ) : ℝ) = 900 by
        norm_num [absMaxList]]
      have := dB900_bounds.1
      linarith)
